import Mathlib

/-!
Verification of the growable contiguous-storage primitive `juce::ArrayBase`
(modules/juce_core/containers/juce_ArrayBase.h).

The container is embedded shallowly: the live region `elements[0, numUsed)`
is a `List Int` (one representative, equality-comparable element type), and
`numAllocated` is the reserved capacity in element slots.  `numUsed` is the
length of that list.  C++ `int` indices arriving from callers are modelled
as `Int` (so negative and too-large indices are representable); counts and
sizes, which are non-negative in every run that avoids the library's
assertion failures / undefined behaviour, are modelled as `Nat`.
The trivially-copyable and non-trivially-copyable code paths of the source
compute the same sequence of element values, so a single definition stands
for both.
-/

namespace Juce

/-- `juce::isPositiveAndBelow (valueToTest, upperLimit)`:
`0 <= valueToTest < upperLimit`. -/
def isPositiveAndBelow (valueToTest : Int) (upperLimit : Nat) : Prop :=
  0 ≤ valueToTest ∧ valueToTest < (upperLimit : Int)

instance (v : Int) (u : Nat) : Decidable (isPositiveAndBelow v u) :=
  inferInstanceAs (Decidable (_ ∧ _))

/-- The state of a `juce::ArrayBase<ElementType, ...>`: the list of live,
constructed elements (`elements[0, numUsed)` in the source; `numUsed` is the
list's length) and the allocated capacity `numAllocated`. -/
structure ArrayBase where
  elements : List Int
  numAllocated : Nat
deriving DecidableEq, Repr

namespace ArrayBase

/-- `size()`: returns `numUsed`. -/
def size (a : ArrayBase) : Nat := a.elements.length

/-- `capacity()`: returns `numAllocated`. -/
def capacity (a : ArrayBase) : Nat := a.numAllocated

/-- A default-constructed array: no elements, no allocation. -/
def empty : ArrayBase := ⟨[], 0⟩

/-- `setAllocatedSize (numElements)`: reallocates to exactly `numElements`
slots, relocating the live elements (their values are unchanged, so the
element list is unchanged).  The source asserts `numElements >= numUsed`;
that precondition appears as `validOp` below. -/
def setAllocatedSize (a : ArrayBase) (numElements : Nat) : ArrayBase :=
  { a with numAllocated := numElements }

/-- `(x & ~7)` of the source, for a non-negative `x`: clear the low three
bits, i.e. round x down to a multiple of 8. -/
def andNotSeven (x : Nat) : Nat := x / 8 * 8

/-- `ensureAllocatedSize (minNumElements)`: if `minNumElements > numAllocated`,
reallocate to `(minNumElements + minNumElements / 2 + 8) & ~7`.  In the
growing branch `minNumElements > numAllocated >= 0`, so the C++ `int`
arithmetic (truncating division, bit-and on a non-negative value) coincides
with the `Nat` arithmetic on `minNumElements.toNat`. -/
def ensureAllocatedSize (a : ArrayBase) (minNumElements : Int) : ArrayBase :=
  if (a.numAllocated : Int) < minNumElements then
    setAllocatedSize a
      (andNotSeven (minNumElements.toNat + minNumElements.toNat / 2 + 8))
  else a

/-- `shrinkToNoMoreThan (maxNumElements)`: reallocates only if
`maxNumElements < numAllocated`. -/
def shrinkToNoMoreThan (a : ArrayBase) (maxNumElements : Nat) : ArrayBase :=
  if maxNumElements < a.numAllocated then setAllocatedSize a maxNumElements
  else a

/-- `clear()`: destroys elements `0 .. numUsed-1` and sets `numUsed = 0`.
`numAllocated` is untouched. -/
def clear (a : ArrayBase) : ArrayBase := { a with elements := [] }

/-- The slots destroyed by `clear()`'s loop `for (int i = 0; i < numUsed; ++i)
elements[i].~ElementType()`, in order. -/
def clearDestroyedSlots (a : ArrayBase) : List Nat := List.range a.elements.length

/-- `addAssumingCapacityIsReady (element)`: placement-new of the element at
slot `numUsed`, then `++numUsed`. -/
def addAssumingCapacityIsReady (a : ArrayBase) (element : Int) : ArrayBase :=
  { a with elements := a.elements ++ [element] }

/-- `add (newElement)`: `ensureAllocatedSize (numUsed + 1)` then construct the
element at the end. -/
def add (a : ArrayBase) (newElement : Int) : ArrayBase :=
  addAssumingCapacityIsReady
    (ensureAllocatedSize a ((a.elements.length : Int) + 1)) newElement

/-- Variadic `add (firstNewElement, otherElements...)`:
`ensureAllocatedSize (numUsed + 1 + sizeof...(otherElements))`, then
construct each new element in order at the end. -/
def addVariadic (a : ArrayBase) (firstNewElement : Int) (otherElements : List Int) :
    ArrayBase :=
  (otherElements.foldl addAssumingCapacityIsReady
    (addAssumingCapacityIsReady
      (ensureAllocatedSize a ((a.elements.length : Int) + 1 + otherElements.length))
      firstNewElement))

/-- `addArray (elementsToAdd, numElementsToAdd)`:
`ensureAllocatedSize (numUsed + numElementsToAdd)`, construct the new
elements after the existing ones, `numUsed += numElementsToAdd`. -/
def addArray (a : ArrayBase) (elementsToAdd : List Int) : ArrayBase :=
  let b := ensureAllocatedSize a ((a.elements.length : Int) + elementsToAdd.length)
  { b with elements := b.elements ++ elementsToAdd }

/-- The slot where `createInsertSpace (indexToInsertAt, numElements)` opens
the gap: `indexToInsertAt` itself when `isPositiveAndBelow (indexToInsertAt,
numUsed)`, otherwise the end of the live range (`elements + numUsed`). -/
def insertPos (a : ArrayBase) (indexToInsertAt : Int) : Nat :=
  if isPositiveAndBelow indexToInsertAt a.elements.length then indexToInsertAt.toNat
  else a.elements.length

/-- `insert (indexToInsertAt, newElement, numberOfTimesToInsertIt)`:
`createInsertSpace` ensures capacity for `numUsed + numberOfTimesToInsertIt`
and shifts `[indexToInsertAt, numUsed)` right by that many slots (or yields
the end slot when the index is not positive-and-below `numUsed`); the copies
are constructed into the gap and `numUsed += numberOfTimesToInsertIt`.
A negative `numberOfTimesToInsertIt` is undefined behaviour in the source
(`memmove` with a negative byte count cast to `size_t`), so the count is a
`Nat`. -/
def insert (a : ArrayBase) (indexToInsertAt : Int) (newElement : Int)
    (numberOfTimesToInsertIt : Nat) : ArrayBase :=
  let b := ensureAllocatedSize a
    ((a.elements.length : Int) + numberOfTimesToInsertIt)
  { b with elements :=
      b.elements.take (insertPos a indexToInsertAt)
        ++ List.replicate numberOfTimesToInsertIt newElement
        ++ b.elements.drop (insertPos a indexToInsertAt) }

/-- `insertArray (indexToInsertAt, newElements, numberOfElements)`: same gap
opening as `insert`, then the given elements are copy-constructed into the
gap in order. -/
def insertArray (a : ArrayBase) (indexToInsertAt : Int) (newElements : List Int) :
    ArrayBase :=
  let b := ensureAllocatedSize a ((a.elements.length : Int) + newElements.length)
  { b with elements :=
      b.elements.take (insertPos a indexToInsertAt)
        ++ newElements
        ++ b.elements.drop (insertPos a indexToInsertAt) }

/-- `removeElements (indexToRemoveAt, numElementsToRemove)`: under the asserted
precondition `indexToRemoveAt >= 0 && numElementsToRemove >= 0 &&
indexToRemoveAt + numElementsToRemove <= numUsed`, if the count is positive
the surviving tail `[indexToRemoveAt + numElementsToRemove, numUsed)` is
shifted left onto `indexToRemoveAt` and `numUsed -= numElementsToRemove`;
outside the precondition the source is undefined (the `jassert`s fire). -/
def removeElements (a : ArrayBase) (indexToRemoveAt numElementsToRemove : Int) :
    ArrayBase :=
  if 0 < numElementsToRemove then
    { a with elements :=
        a.elements.take indexToRemoveAt.toNat
          ++ a.elements.drop (indexToRemoveAt.toNat + numElementsToRemove.toNat) }
  else a

/-- `swap (index1, index2)`: exchanges the two values when both indices are
positive-and-below `numUsed`, otherwise does nothing. -/
def swap (a : ArrayBase) (index1 index2 : Int) : ArrayBase :=
  if isPositiveAndBelow index1 a.elements.length
      ∧ isPositiveAndBelow index2 a.elements.length then
    let swapped :=
      (a.elements.set index1.toNat (a.elements.getD index2.toNat 0)).set
        index2.toNat (a.elements.getD index1.toNat 0)
    { a with elements := swapped }
  else a

/-- `moveInternal (currentIndex, newIndex)` on the element list: save
`elements[currentIndex]`; if `newIndex > currentIndex`, `memmove` the range
`[currentIndex+1, newIndex]` one slot down, else `memmove` the range
`[newIndex, currentIndex)` one slot up; then place the saved value at
`newIndex`.  (The non-trivially-copyable overload computes the same values
with per-element move-assignments.) -/
def moveInternal (s : List Int) (currentIndex newIndex : Nat) : List Int :=
  if currentIndex < newIndex then
    s.take currentIndex ++ (s.drop (currentIndex + 1)).take (newIndex - currentIndex)
      ++ [s.getD currentIndex 0] ++ s.drop (newIndex + 1)
  else
    s.take newIndex ++ [s.getD currentIndex 0]
      ++ (s.drop newIndex).take (currentIndex - newIndex) ++ s.drop (currentIndex + 1)

/-- The destination index `move` actually uses: `newIndex` itself when it is
positive-and-below `numUsed`, else `numUsed - 1`. -/
def clampedNewIndex (a : ArrayBase) (newIndex : Int) : Nat :=
  if isPositiveAndBelow newIndex a.elements.length then newIndex.toNat
  else a.elements.length - 1

/-- `move (currentIndex, newIndex)`: no-op unless `currentIndex` is
positive-and-below `numUsed`; `newIndex` is clamped to `numUsed - 1` when it
is not; then `moveInternal` relocates the element. -/
def move (a : ArrayBase) (currentIndex newIndex : Int) : ArrayBase :=
  if isPositiveAndBelow currentIndex a.elements.length then
    { a with elements :=
               moveInternal a.elements currentIndex.toNat (a.clampedNewIndex newIndex) }
  else a

end ArrayBase

/-- The element-comparison loop of `operator==`: walks `other` with a cursor
`e` into this array's elements, returning `false` at the first pair that does
not compare equal.  It runs only after the size check, so the two lists have
equal length at every call; the `[]`-vs-cons case is unreachable there. -/
def eqLoop : List Int → List Int → Bool
  | _, [] => true
  | [], _ :: _ => false
  | e :: es, o :: os => if !(e == o) then false else eqLoop es os

/-- `operator== (other)`: `false` if `size() != other.size()`, else the
element loop. -/
def arrayEq (a b : ArrayBase) : Bool :=
  if a.elements.length ≠ b.elements.length then false
  else eqLoop a.elements b.elements

/-- `Modelled from the spec:` the spec's own `round_up_to_multiple_of_8`
(§4.1 "reallocate to `round_up_to_multiple_of_8(min + min/2 + 8)`"), kept
separate from the source-derived `andNotSeven` so the two can be compared. -/
def roundUpToMultipleOf8 (n : Nat) : Nat := (n + 7) / 8 * 8

/-! ### Basic lemmas about the capacity manager -/

theorem ensureAllocatedSize_elements (a : ArrayBase) (m : Int) :
    (a.ensureAllocatedSize m).elements = a.elements := by
  unfold ArrayBase.ensureAllocatedSize ArrayBase.setAllocatedSize
  split <;> rfl

theorem capacity_le_ensureAllocatedSize (a : ArrayBase) (m : Int) :
    a.numAllocated ≤ (a.ensureAllocatedSize m).numAllocated := by
  unfold ArrayBase.ensureAllocatedSize ArrayBase.setAllocatedSize ArrayBase.andNotSeven
  split
  · rename_i h
    have ht : a.numAllocated < m.toNat := by omega
    have h8 := Nat.div_add_mod (m.toNat + m.toNat / 2 + 8) 8
    have h9 : (m.toNat + m.toNat / 2 + 8) % 8 < 8 := Nat.mod_lt _ (by omega)
    simp only
    omega
  · exact Nat.le_refl _

theorem le_ensureAllocatedSize (a : ArrayBase) (m : Int) :
    m ≤ ((a.ensureAllocatedSize m).numAllocated : Int) := by
  unfold ArrayBase.ensureAllocatedSize ArrayBase.setAllocatedSize ArrayBase.andNotSeven
  split
  · rename_i h
    have h8 := Nat.div_add_mod (m.toNat + m.toNat / 2 + 8) 8
    have h9 : (m.toNat + m.toNat / 2 + 8) % 8 < 8 := Nat.mod_lt _ (by omega)
    simp only
    omega
  · omega

/-- Claim C1 (counterexample): with capacity 0 and requested minimum 1, the
code reallocates to `(1 + 1/2 + 8) & ~7 = 8`, not to
`round_up_to_multiple_of_8 (1 + 1/2 + 8) = 16` as the claim states. -/
theorem C1_growth_not_roundUp_counterexample :
    (ArrayBase.ensureAllocatedSize ⟨[], 0⟩ 1).numAllocated
      ≠ roundUpToMultipleOf8 (1 + 1 / 2 + 8) := by
  decide

/-- Claim C1 (amended): if `min > capacity`, `ensureAllocatedSize (min)` sets
the capacity to `min + min/2 + 8` rounded *down* to a multiple of 8 (the
source's `(min + min/2 + 8) & ~7`); if `min <= capacity` it leaves the state
unchanged; in either case the resulting capacity is at least `min`. -/
theorem C1_ensureAllocatedSize_spec (a : ArrayBase) (m : Int) :
    ((a.numAllocated : Int) < m →
      (a.ensureAllocatedSize m).numAllocated
        = ArrayBase.andNotSeven (m.toNat + m.toNat / 2 + 8))
    ∧ (m ≤ (a.numAllocated : Int) → a.ensureAllocatedSize m = a)
    ∧ m ≤ ((a.ensureAllocatedSize m).numAllocated : Int) := by
  refine ⟨?_, ?_, le_ensureAllocatedSize a m⟩
  · intro h
    unfold ArrayBase.ensureAllocatedSize ArrayBase.setAllocatedSize
    rw [if_pos h]
  · intro h
    unfold ArrayBase.ensureAllocatedSize
    rw [if_neg (by omega)]

/-- Witness for C1 at concrete inputs: growing from capacity 0 with min 5
yields `(5 + 2 + 8) & ~7 = 8`; min 5 below capacity 9 changes nothing; the
result covers the request. -/
theorem C1_ensureAllocatedSize_spec_witness :
    (ArrayBase.ensureAllocatedSize ⟨[], 0⟩ 5).numAllocated
        = ArrayBase.andNotSeven ((5 : Int).toNat + (5 : Int).toNat / 2 + 8)
    ∧ ArrayBase.ensureAllocatedSize ⟨[], 9⟩ 5 = ⟨[], 9⟩
    ∧ (5 : Int) ≤ ((ArrayBase.ensureAllocatedSize ⟨[], 0⟩ 5).numAllocated : Int) :=
  ⟨(C1_ensureAllocatedSize_spec ⟨[], 0⟩ 5).1 (by decide),
   (C1_ensureAllocatedSize_spec ⟨[], 9⟩ 5).2.1 (by decide),
   (C1_ensureAllocatedSize_spec ⟨[], 0⟩ 5).2.2⟩

/-! ### Insertion and removal -/

theorem insertPos_of_inRange (a : ArrayBase) (i : Int)
    (h : isPositiveAndBelow i a.elements.length) :
    a.insertPos i = i.toNat := by
  unfold ArrayBase.insertPos
  rw [if_pos h]

theorem insertPos_of_notInRange (a : ArrayBase) (i : Int)
    (h : ¬ isPositiveAndBelow i a.elements.length) :
    a.insertPos i = a.elements.length := by
  unfold ArrayBase.insertPos
  rw [if_neg h]

theorem insert_elements (a : ArrayBase) (i v : Int) (rep : Nat) :
    (a.insert i v rep).elements
      = a.elements.take (a.insertPos i) ++ List.replicate rep v
          ++ a.elements.drop (a.insertPos i) := by
  unfold ArrayBase.insert
  simp only [ensureAllocatedSize_elements]

/-- Claim C3: for a container with contents `s`, if `0 <= i < len` then
`insert (i, v, rep)` yields `s[0..i) ++ rep copies of v ++ s[i..len)` and the
length becomes `len + rep`; if `i >= len` it degrades to appending the `rep`
copies at the end. -/
theorem C3_insert_spec (a : ArrayBase) (v : Int) (rep : Nat) (i : Int) :
    (isPositiveAndBelow i a.size →
      (a.insert i v rep).elements
          = a.elements.take i.toNat ++ List.replicate rep v
              ++ a.elements.drop i.toNat
        ∧ (a.insert i v rep).size = a.size + rep)
    ∧ ((a.size : Int) ≤ i →
      (a.insert i v rep).elements = a.elements ++ List.replicate rep v) := by
  constructor
  · intro h
    have h0 : (0 : Int) ≤ i := h.1
    have h1 : i < (a.elements.length : Int) := h.2
    have he := insert_elements a i v rep
    rw [insertPos_of_inRange a i h] at he
    refine ⟨he, ?_⟩
    have hlen : i.toNat ≤ a.elements.length := by omega
    simp only [ArrayBase.size, he, List.length_append, List.length_take,
      List.length_replicate, List.length_drop]
    omega
  · intro h
    simp only [ArrayBase.size] at h
    have hnot : ¬ isPositiveAndBelow i a.elements.length := by
      intro hin
      have h1 : i < (a.elements.length : Int) := hin.2
      omega
    have he := insert_elements a i v rep
    rw [insertPos_of_notInRange a i hnot] at he
    simpa using he

/-- Witness for C3: inserting two 9s at index 1 of `[1,2,3]` gives
`[1,9,9,2,3]`; inserting at index 7 appends. -/
theorem C3_insert_spec_witness :
    ((⟨[1, 2, 3], 8⟩ : ArrayBase).insert 1 9 2).elements
        = [1] ++ [9, 9] ++ [2, 3]
    ∧ ((⟨[1, 2, 3], 8⟩ : ArrayBase).insert 1 9 2).size = 3 + 2
    ∧ ((⟨[1, 2, 3], 8⟩ : ArrayBase).insert 7 9 2).elements = [1, 2, 3] ++ [9, 9] := by
  have h1 := (C3_insert_spec ⟨[1, 2, 3], 8⟩ 9 2 1).1 (by decide)
  have h2 := (C3_insert_spec ⟨[1, 2, 3], 8⟩ 9 2 7).2 (by decide)
  exact ⟨h1.1, h1.2, h2⟩

/-- Claim C4: under the precondition `0 <= i`, `0 <= c`, `i + c <= len`,
`removeElements (i, c)` yields `s[0..i) ++ s[i+c..len)` (so elements outside
the removed range keep their values and relative order), the length becomes
`len - c`, and a removal of zero elements changes nothing. -/
theorem C4_removeElements_spec (a : ArrayBase) (i c : Int)
    (hi : 0 ≤ i) (hc : 0 ≤ c) (hic : i + c ≤ (a.size : Int)) :
    (a.removeElements i c).elements
        = a.elements.take i.toNat ++ a.elements.drop (i.toNat + c.toNat)
    ∧ (a.removeElements i c).size = a.size - c.toNat
    ∧ (c = 0 → a.removeElements i c = a) := by
  simp only [ArrayBase.size] at hic
  have hsum : i.toNat + c.toNat ≤ a.elements.length := by omega
  by_cases hpos : 0 < c
  · have helts : (a.removeElements i c).elements
        = a.elements.take i.toNat ++ a.elements.drop (i.toNat + c.toNat) := by
      unfold ArrayBase.removeElements
      rw [if_pos hpos]
    refine ⟨helts, ?_, ?_⟩
    · simp only [ArrayBase.size, helts, List.length_append, List.length_take,
        List.length_drop]
      omega
    · intro h0
      omega
  · have h0 : c = 0 := by omega
    subst h0
    have hid : a.removeElements i 0 = a := by
      unfold ArrayBase.removeElements
      rw [if_neg (by omega)]
    rw [hid]
    refine ⟨?_, by simp [ArrayBase.size], fun _ => rfl⟩
    rw [Int.toNat_zero, Nat.add_zero, List.take_append_drop]

/-- Witness for C4: removing 2 elements at index 1 of `[1,9,9,2,3]` gives
`[1] ++ [2,3]`, length 3; removing 0 elements is the identity. -/
theorem C4_removeElements_spec_witness :
    ((⟨[1, 9, 9, 2, 3], 8⟩ : ArrayBase).removeElements 1 2).elements
        = [1] ++ [2, 3]
    ∧ ((⟨[1, 9, 9, 2, 3], 8⟩ : ArrayBase).removeElements 1 2).size = 5 - 2
    ∧ (⟨[1, 9, 9, 2, 3], 8⟩ : ArrayBase).removeElements 3 0 = ⟨[1, 9, 9, 2, 3], 8⟩ := by
  have h1 := C4_removeElements_spec ⟨[1, 9, 9, 2, 3], 8⟩ 1 2 (by decide) (by decide)
    (by decide)
  have h2 := C4_removeElements_spec ⟨[1, 9, 9, 2, 3], 8⟩ 3 0 (by decide) (by decide)
    (by decide)
  exact ⟨h1.1, h1.2.1, h2.2.2 rfl⟩

/-- Claim C10: a negative insertion index is tolerated: `insert (i, v, rep)`
with `i < 0` behaves exactly like insertion at index `len`, appending the
`rep` copies of `v` at the end (it does not insert at the front). -/
theorem C10_insert_negative_index (a : ArrayBase) (v : Int) (rep : Nat) (i : Int)
    (hneg : i < 0) :
    a.insert i v rep = a.insert (a.size : Int) v rep
    ∧ (a.insert i v rep).elements = a.elements ++ List.replicate rep v := by
  have hni : ¬ isPositiveAndBelow i a.elements.length := by
    intro h
    exact absurd h.1 (not_le.mpr hneg)
  have hnl : ¬ isPositiveAndBelow (a.size : Int) a.elements.length := by
    intro h
    have h2 : ((a.size : Nat) : Int) < (a.elements.length : Int) := h.2
    simp only [ArrayBase.size] at h2
    exact absurd h2 (lt_irrefl _)
  constructor
  · unfold ArrayBase.insert
    rw [insertPos_of_notInRange a i hni, insertPos_of_notInRange a _ hnl]
  · have he := insert_elements a i v rep
    rw [insertPos_of_notInRange a i hni] at he
    simpa using he

/-- Witness for C10: inserting at index -3 appends. -/
theorem C10_insert_negative_index_witness :
    (⟨[1, 2], 4⟩ : ArrayBase).insert (-3) 7 2
        = (⟨[1, 2], 4⟩ : ArrayBase).insert ((⟨[1, 2], 4⟩ : ArrayBase).size : Int) 7 2
    ∧ ((⟨[1, 2], 4⟩ : ArrayBase).insert (-3) 7 2).elements
        = [1, 2] ++ List.replicate 2 7 :=
  C10_insert_negative_index ⟨[1, 2], 4⟩ 7 2 (-3) (by decide)

/-- Claim C9: `clear()` destroys each of the `len` live slots exactly once,
resets the length to 0, and leaves the capacity untouched; an append on a
cleared container that still has a free slot does not change the capacity. -/
theorem C9_clear_spec (a : ArrayBase) (v : Int) :
    a.clear.size = 0
    ∧ a.clear.capacity = a.capacity
    ∧ a.clearDestroyedSlots.length = a.size
    ∧ (∀ i, i < a.size → a.clearDestroyedSlots.count i = 1)
    ∧ (a.clear.size + 1 ≤ a.clear.capacity → (a.clear.add v).capacity = a.capacity) := by
  refine ⟨rfl, rfl, by simp [ArrayBase.clearDestroyedSlots, ArrayBase.size], ?_, ?_⟩
  · intro i hi
    exact List.count_eq_one_of_mem (List.nodup_range _)
      (List.mem_range.mpr hi)
  · intro hcap
    simp only [ArrayBase.clear, ArrayBase.size, ArrayBase.capacity,
      List.length_nil] at hcap ⊢
    unfold ArrayBase.add ArrayBase.addAssumingCapacityIsReady
      ArrayBase.ensureAllocatedSize
    rw [if_neg (by simp [ArrayBase.clear]; omega)]

/-- Witness for C9 on `[4,5,6]` with capacity 8. -/
theorem C9_clear_spec_witness :
    (⟨[4, 5, 6], 8⟩ : ArrayBase).clear.size = 0
    ∧ (⟨[4, 5, 6], 8⟩ : ArrayBase).clear.capacity = (⟨[4, 5, 6], 8⟩ : ArrayBase).capacity
    ∧ (⟨[4, 5, 6], 8⟩ : ArrayBase).clearDestroyedSlots.count 2 = 1
    ∧ ((⟨[4, 5, 6], 8⟩ : ArrayBase).clear.add 7).capacity
        = (⟨[4, 5, 6], 8⟩ : ArrayBase).capacity := by
  have h := C9_clear_spec ⟨[4, 5, 6], 8⟩ 7
  exact ⟨h.1, h.2.1, h.2.2.2.1 2 (by decide), h.2.2.2.2 (by decide)⟩

/-! ### Insert / remove round trip -/

theorem take_cons_drop_extract (s : List Int) (v : Int) (n : Nat)
    (h : n ≤ s.length) :
    (s.take n ++ v :: s.drop n).take n ++ (s.take n ++ v :: s.drop n).drop (n + 1)
      = s := by
  have hlen : (s.take n).length = n := by
    simp [List.length_take, h]
  rw [List.take_append_eq_append_take, List.drop_append_eq_append_drop, hlen,
    List.take_take, Nat.min_self, Nat.sub_self, List.take_zero, List.append_nil,
    Nat.add_sub_cancel_left]
  have hd : (s.take n).drop (n + 1) = [] := by
    apply List.drop_eq_nil_of_le
    omega
  rw [hd, List.nil_append, List.drop_succ_cons, List.drop_zero,
    List.take_append_drop]

/-- Claim C7: for `0 <= i <= len` (any other `i` violates `removeElements`'
asserted precondition after the insertion), inserting `v` at `i` and then
removing the range `[i, i+1)` restores the original element sequence. -/
theorem C7_insert_remove_roundtrip (a : ArrayBase) (v : Int) (i : Int)
    (h0 : 0 ≤ i) (h1 : i ≤ (a.size : Int)) :
    ((a.insert i v 1).removeElements i 1).elements = a.elements
    ∧ ((a.insert i v 1).removeElements i 1).size = a.size := by
  simp only [ArrayBase.size] at h1
  have hpos : a.insertPos i = i.toNat := by
    by_cases h : isPositiveAndBelow i a.elements.length
    · exact insertPos_of_inRange a i h
    · rw [insertPos_of_notInRange a i h]
      unfold isPositiveAndBelow at h
      omega
  have he := insert_elements a i v 1
  rw [hpos] at he
  have hins : (a.insert i v 1).elements
      = a.elements.take i.toNat ++ v :: a.elements.drop i.toNat := by
    simpa using he
  have hrem : ((a.insert i v 1).removeElements i 1).elements
      = (a.insert i v 1).elements.take i.toNat
          ++ (a.insert i v 1).elements.drop (i.toNat + 1) := by
    unfold ArrayBase.removeElements
    rw [if_pos (by norm_num)]
    simp
  have hfinal : ((a.insert i v 1).removeElements i 1).elements = a.elements := by
    rw [hrem, hins]
    exact take_cons_drop_extract a.elements v i.toNat (by omega)
  exact ⟨hfinal, by simp [ArrayBase.size, hfinal]⟩

/-- Witness for C7: insert 9 at index 1 of `[1,2,3]`, then remove `[1,2)`. -/
theorem C7_insert_remove_roundtrip_witness :
    (((⟨[1, 2, 3], 8⟩ : ArrayBase).insert 1 9 1).removeElements 1 1).elements
        = [1, 2, 3]
    ∧ (((⟨[1, 2, 3], 8⟩ : ArrayBase).insert 1 9 1).removeElements 1 1).size = 3 :=
  C7_insert_remove_roundtrip ⟨[1, 2, 3], 8⟩ 9 1 (by decide) (by decide)

/-! ### Equality -/

theorem eqLoop_iff : ∀ s t : List Int, s.length = t.length →
    (eqLoop s t = true ↔ s = t)
  | [], [], _ => by simp [eqLoop]
  | e :: es, [], h => by simp at h
  | [], o :: os, h => by simp at h
  | e :: es, o :: os, h => by
    have ih := eqLoop_iff es os (by simpa using h)
    unfold eqLoop
    by_cases hc : e = o
    · subst hc
      simpa using ih
    · have hbe : (e == o) = false := beq_eq_false_iff_ne.mpr hc
      simp [hbe, hc]

theorem arrayEq_iff (a b : ArrayBase) :
    arrayEq a b = true ↔ a.elements = b.elements := by
  unfold arrayEq
  by_cases h : a.elements.length = b.elements.length
  · rw [if_neg (by omega)]
    exact eqLoop_iff _ _ h
  · rw [if_pos h]
    constructor
    · intro hf
      cases hf
    · intro hev
      exact absurd (congrArg List.length hev) h

/-- Claim C8: `operator==` returns true iff the two sequences have the same
length and agree elementwise; it is false on any length mismatch, false
whenever any corresponding pair differs (whatever follows it — the loop
short-circuits there), reflexive, and symmetric; with the concrete examples
of the spec. -/
theorem C8_operatorEq_spec :
    (∀ a b : ArrayBase, arrayEq a b = true ↔
      (a.size = b.size ∧ ∀ k : Nat, k < a.size →
        a.elements.getD k 0 = b.elements.getD k 0))
    ∧ (∀ a : ArrayBase, arrayEq a a = true)
    ∧ (∀ a b : ArrayBase, arrayEq a b = arrayEq b a)
    ∧ (∀ (p r s : List Int) (x y : Int) (c c' : Nat), x ≠ y →
        arrayEq ⟨p ++ x :: r, c⟩ ⟨p ++ y :: s, c'⟩ = false)
    ∧ arrayEq ⟨[1, 2, 3], 4⟩ ⟨[1, 2, 3], 8⟩ = true
    ∧ arrayEq ⟨[1, 2, 3], 4⟩ ⟨[1, 2], 8⟩ = false
    ∧ arrayEq ⟨[1, 2, 3], 4⟩ ⟨[1, 2, 4], 8⟩ = false := by
  have hiff : ∀ a b : ArrayBase, arrayEq a b = true ↔
      (a.size = b.size ∧ ∀ k : Nat, k < a.size →
        a.elements.getD k 0 = b.elements.getD k 0) := by
    intro a b
    rw [arrayEq_iff]
    constructor
    · intro h
      exact ⟨by simp [ArrayBase.size, h], fun k _ => by rw [h]⟩
    · rintro ⟨hlen, hk⟩
      simp only [ArrayBase.size] at hlen
      apply List.ext_getElem hlen
      intro k hk1 hk2
      have := hk k hk1
      rwa [List.getD_eq_getElem _ _ hk1, List.getD_eq_getElem _ _ hk2] at this
  refine ⟨hiff, ?_, ?_, ?_, by decide, by decide, by decide⟩
  · intro a
    exact (arrayEq_iff a a).mpr rfl
  · intro a b
    by_cases h : a.elements = b.elements
    · rw [(arrayEq_iff a b).mpr h, (arrayEq_iff b a).mpr h.symm]
    · have h1 : arrayEq a b = false := by
        have := (arrayEq_iff a b).not.mpr h
        simpa using this
      have h2 : arrayEq b a = false := by
        have := (arrayEq_iff b a).not.mpr (fun hev => h hev.symm)
        simpa using this
      rw [h1, h2]
  · intro p r s x y c c' hxy
    have hne : (⟨p ++ x :: r, c⟩ : ArrayBase).elements
        ≠ (⟨p ++ y :: s, c'⟩ : ArrayBase).elements := by
      intro hev
      simp only at hev
      have := List.append_cancel_left hev
      exact hxy (by injection this)
    have := (arrayEq_iff ⟨p ++ x :: r, c⟩ ⟨p ++ y :: s, c'⟩).not.mpr hne
    simpa using this

/-- Witness for C8: the elementwise reading of a concrete equality, and the
short-circuit on `[0,1]` vs `[0,2]`. -/
theorem C8_operatorEq_spec_witness :
    ((⟨[7, 8], 2⟩ : ArrayBase).size = (⟨[7, 8], 4⟩ : ArrayBase).size
      ∧ ∀ k : Nat, k < (⟨[7, 8], 2⟩ : ArrayBase).size →
          (⟨[7, 8], 2⟩ : ArrayBase).elements.getD k 0
            = (⟨[7, 8], 4⟩ : ArrayBase).elements.getD k 0)
    ∧ arrayEq ⟨[0] ++ 1 :: [], 2⟩ ⟨[0] ++ 2 :: [], 2⟩ = false :=
  ⟨(C8_operatorEq_spec.1 ⟨[7, 8], 2⟩ ⟨[7, 8], 4⟩).mp (by decide),
   C8_operatorEq_spec.2.2.2.1 [0] [] [] 1 2 2 2 (by decide)⟩

/-! ### Single-element move -/

theorem insertIdx_eq_take_cons_drop :
    ∀ (n : Nat) (x : Int) (l : List Int), n ≤ l.length →
      l.insertIdx n x = l.take n ++ x :: l.drop n
  | 0, x, l, _ => by simp
  | n + 1, x, [], h => by simp at h
  | n + 1, x, a :: l, h => by
    rw [List.insertIdx_succ_cons, insertIdx_eq_take_cons_drop n x l (by simpa using h)]
    rfl

theorem insertIdx_getD_eraseIdx :
    ∀ (n : Nat) (s : List Int), n < s.length →
      (s.eraseIdx n).insertIdx n (s.getD n 0) = s
  | 0, a :: s, _ => rfl
  | n + 1, a :: s, h => by
    have ih := insertIdx_getD_eraseIdx n s (by simpa using h)
    simpa [List.eraseIdx, List.insertIdx_succ_cons] using ih

theorem moveInternal_eq_insertIdx (s : List Int) (cur new : Nat)
    (hc : cur < s.length) (hn : new < s.length) :
    ArrayBase.moveInternal s cur new
      = (s.eraseIdx cur).insertIdx new (s.getD cur 0) := by
  have hE : s.eraseIdx cur = s.take cur ++ s.drop (cur + 1) :=
    List.eraseIdx_eq_take_drop_succ s cur
  have hlenE : (s.eraseIdx cur).length = s.length - 1 := List.length_eraseIdx_of_lt hc
  have htc : (s.take cur).length = cur := by simp [List.length_take]; omega
  rw [insertIdx_eq_take_cons_drop new _ _ (by omega), hE,
    List.take_append_eq_append_take, List.drop_append_eq_append_drop, htc,
    List.take_take]
  unfold ArrayBase.moveInternal
  by_cases hcase : cur < new
  · rw [if_pos hcase]
    have h1 : min new cur = cur := by omega
    have h2 : (s.take cur).drop new = [] := List.drop_eq_nil_of_le (by omega)
    rw [h1, h2, List.nil_append, List.drop_drop]
    have h3 : cur + 1 + (new - cur) = new + 1 := by omega
    rw [h3]
    simp
  · rw [if_neg hcase]
    have h1 : min new cur = new := by omega
    have h2 : new - cur = 0 := by omega
    rw [h1, h2, List.take_zero, List.append_nil, List.drop_zero, List.drop_take]
    simp

theorem moveInternal_length (s : List Int) (cur new : Nat)
    (hc : cur < s.length) (hn : new < s.length) :
    (ArrayBase.moveInternal s cur new).length = s.length := by
  rw [moveInternal_eq_insertIdx s cur new hc hn]
  have hlenE : (s.eraseIdx cur).length = s.length - 1 := List.length_eraseIdx_of_lt hc
  rw [List.length_insertIdx _ _ (by omega)]
  omega

/-- Claim C6 (counterexample): on `[0,1]`, `move (0, 2)` clamps the
destination to 1 and yields `[1,0]`, but the reverse `move (2, 0)` is a
no-op because its source index 2 is out of range — the original order is not
restored. -/
theorem C6_move_roundtrip_counterexample :
    ((⟨[0, 1], 2⟩ : ArrayBase).move 0 2).move 2 0 ≠ (⟨[0, 1], 2⟩ : ArrayBase) := by
  decide

/-- Claim C6 (amended): when both indices are in `[0, len)` — so that neither
call clamps or degenerates to a no-op — `move (from, to)` followed by
`move (to, from)` restores the original state exactly. -/
theorem C6_move_move_roundtrip (a : ArrayBase) (src dst : Int)
    (hs : isPositiveAndBelow src a.size) (hd : isPositiveAndBelow dst a.size) :
    (a.move src dst).move dst src = a := by
  obtain ⟨s, cap⟩ := a
  simp only [ArrayBase.size] at hs hd
  have hf : src.toNat < s.length := by
    obtain ⟨h1, h2⟩ := hs
    omega
  have ht : dst.toNat < s.length := by
    obtain ⟨h1, h2⟩ := hd
    omega
  have hm1 : (⟨s, cap⟩ : ArrayBase).move src dst
      = ⟨ArrayBase.moveInternal s src.toNat dst.toNat, cap⟩ := by
    unfold ArrayBase.move ArrayBase.clampedNewIndex
    rw [if_pos hs, if_pos hd]
  set M := ArrayBase.moveInternal s src.toNat dst.toNat with hM
  have hMeq : M = (s.eraseIdx src.toNat).insertIdx dst.toNat (s.getD src.toNat 0) :=
    moveInternal_eq_insertIdx s src.toNat dst.toNat hf ht
  have hlenE : (s.eraseIdx src.toNat).length = s.length - 1 :=
    List.length_eraseIdx_of_lt hf
  have hlenM : M.length = s.length := moveInternal_length s src.toNat dst.toNat hf ht
  have hm2 : (⟨M, cap⟩ : ArrayBase).move dst src
      = ⟨ArrayBase.moveInternal M dst.toNat src.toNat, cap⟩ := by
    unfold ArrayBase.move ArrayBase.clampedNewIndex
    rw [if_pos (by simpa [hlenM] using hd), if_pos (by simpa [hlenM] using hs)]
  have hMt : M.getD dst.toNat 0 = s.getD src.toNat 0 := by
    rw [hMeq, List.getD_eq_getElem _ _ (by rw [← hMeq, hlenM]; exact ht)]
    exact List.getElem_insertIdx_self _ _ _ (by omega)
  have hMe : M.eraseIdx dst.toNat = s.eraseIdx src.toNat := by
    rw [hMeq]
    exact List.eraseIdx_insertIdx _ _
  have hm3 : ArrayBase.moveInternal M dst.toNat src.toNat = s := by
    rw [moveInternal_eq_insertIdx M dst.toNat src.toNat (by omega) (by omega),
      hMt, hMe]
    exact insertIdx_getD_eraseIdx src.toNat s hf
  rw [hm1, hm2, hm3]

/-- Witness for C6 (amended): moving 0 → 2 and back on `[10,20,30]`. -/
theorem C6_move_move_roundtrip_witness :
    ((⟨[10, 20, 30], 4⟩ : ArrayBase).move 0 2).move 2 0 = ⟨[10, 20, 30], 4⟩ :=
  C6_move_move_roundtrip ⟨[10, 20, 30], 4⟩ 0 2 (by decide) (by decide)

theorem moveInternal_getD_dest (s : List Int) (f t : Nat) (hf : f < s.length)
    (ht : t < s.length) :
    (ArrayBase.moveInternal s f t).getD t 0 = s.getD f 0 := by
  rw [moveInternal_eq_insertIdx s f t hf ht]
  have hlenE : (s.eraseIdx f).length = s.length - 1 := List.length_eraseIdx_of_lt hf
  rw [List.getD_eq_getElem _ _ (by rw [List.length_insertIdx _ _ (by omega)]; omega)]
  exact List.getElem_insertIdx_self _ _ _ (by omega)

theorem moveInternal_getD_shift_up (s : List Int) (f t k : Nat) (hf : f < s.length)
    (ht : t < s.length) (hk1 : f ≤ k) (hk2 : k < t) :
    (ArrayBase.moveInternal s f t).getD k 0 = s.getD (k + 1) 0 := by
  rw [moveInternal_eq_insertIdx s f t hf ht]
  have hlenE : (s.eraseIdx f).length = s.length - 1 := List.length_eraseIdx_of_lt hf
  have hkE : k < (s.eraseIdx f).length := by omega
  rw [List.getD_eq_getElem _ _ (by rw [List.length_insertIdx _ _ (by omega)]; omega),
    List.getD_eq_getElem _ _ (show k + 1 < s.length by omega),
    List.getElem_insertIdx_of_lt _ _ _ _ hk2 hkE]
  exact List.getElem_eraseIdx_of_ge _ _ _ hkE hk1

theorem moveInternal_getD_shift_down (s : List Int) (f t k : Nat) (hf : f < s.length)
    (ht : t < s.length) (hk1 : t < k) (hk2 : k ≤ f) :
    (ArrayBase.moveInternal s f t).getD k 0 = s.getD (k - 1) 0 := by
  obtain ⟨j, hj⟩ : ∃ j, k = t + j + 1 := ⟨k - t - 1, by omega⟩
  subst hj
  rw [moveInternal_eq_insertIdx s f t hf ht]
  have hlenE : (s.eraseIdx f).length = s.length - 1 := List.length_eraseIdx_of_lt hf
  have hjE : t + j < (s.eraseIdx f).length := by omega
  have hidx : t + j + 1 - 1 = t + j := by omega
  rw [hidx,
    List.getD_eq_getElem _ _ (by rw [List.length_insertIdx _ _ (by omega)]; omega),
    List.getD_eq_getElem _ _ (show t + j < s.length by omega),
    List.getElem_insertIdx_add_succ _ _ _ _ hjE]
  exact List.getElem_eraseIdx_of_lt _ _ _ hjE (by omega)

theorem moveInternal_getD_outside (s : List Int) (f t k : Nat) (hf : f < s.length)
    (ht : t < s.length) (hk : k < s.length)
    (hout : (k < f ∧ k < t) ∨ (f < k ∧ t < k)) :
    (ArrayBase.moveInternal s f t).getD k 0 = s.getD k 0 := by
  have hlenE : (s.eraseIdx f).length = s.length - 1 := List.length_eraseIdx_of_lt hf
  rcases hout with ⟨hkf, hkt⟩ | ⟨hfk, htk⟩
  · rw [moveInternal_eq_insertIdx s f t hf ht]
    have hkE : k < (s.eraseIdx f).length := by omega
    rw [List.getD_eq_getElem _ _ (by rw [List.length_insertIdx _ _ (by omega)]; omega),
      List.getD_eq_getElem _ _ hk,
      List.getElem_insertIdx_of_lt _ _ _ _ hkt hkE]
    exact List.getElem_eraseIdx_of_lt _ _ _ hkE hkf
  · obtain ⟨j, hj⟩ : ∃ j, k = t + j + 1 := ⟨k - t - 1, by omega⟩
    subst hj
    rw [moveInternal_eq_insertIdx s f t hf ht]
    have hjE : t + j < (s.eraseIdx f).length := by omega
    rw [List.getD_eq_getElem _ _ (by rw [List.length_insertIdx _ _ (by omega)]; omega),
      List.getD_eq_getElem _ _ hk,
      List.getElem_insertIdx_add_succ _ _ _ _ hjE]
    exact List.getElem_eraseIdx_of_ge _ _ _ hjE (by omega)

/-- Claim C5: `move (src, dst)` is a no-op when `src` is out of range;
otherwise, with `dst' = dst` when `0 <= dst < len` and `dst' = len - 1`
otherwise, it keeps the length, places the old `s[src]` at `dst'`, shifts
every element strictly between `src` and `dst'` one slot toward `src`, and
leaves every element outside the affected range unchanged; concretely
`move (0, 2)` on `[w,x,y,z]` yields `[x,y,w,z]`. -/
theorem C5_move_spec (a : ArrayBase) (src dst : Int) :
    (¬ isPositiveAndBelow src a.size → a.move src dst = a)
    ∧ (isPositiveAndBelow dst a.size → a.clampedNewIndex dst = dst.toNat)
    ∧ (¬ isPositiveAndBelow dst a.size → a.clampedNewIndex dst = a.size - 1)
    ∧ (isPositiveAndBelow src a.size →
        (a.move src dst).size = a.size
        ∧ (a.move src dst).elements.getD (a.clampedNewIndex dst) 0
            = a.elements.getD src.toNat 0
        ∧ (∀ k : Nat, src.toNat ≤ k → k < a.clampedNewIndex dst →
            (a.move src dst).elements.getD k 0 = a.elements.getD (k + 1) 0)
        ∧ (∀ k : Nat, a.clampedNewIndex dst < k → k ≤ src.toNat →
            (a.move src dst).elements.getD k 0 = a.elements.getD (k - 1) 0)
        ∧ (∀ k : Nat, k < a.size →
            (k < src.toNat ∧ k < a.clampedNewIndex dst)
              ∨ (src.toNat < k ∧ a.clampedNewIndex dst < k) →
            (a.move src dst).elements.getD k 0 = a.elements.getD k 0))
    ∧ (∀ w x y z : Int, ∀ c : Nat,
        (ArrayBase.move ⟨[w, x, y, z], c⟩ 0 2).elements = [x, y, w, z]) := by
  refine ⟨?_, ?_, ?_, ?_, ?_⟩
  · intro h
    simp only [ArrayBase.size] at h
    unfold ArrayBase.move
    rw [if_neg h]
  · intro h
    simp only [ArrayBase.size] at h
    unfold ArrayBase.clampedNewIndex
    rw [if_pos h]
  · intro h
    simp only [ArrayBase.size] at h
    unfold ArrayBase.clampedNewIndex
    rw [if_neg h]
    rfl
  · intro hs
    have hf : src.toNat < a.elements.length := by
      obtain ⟨h1, h2⟩ := hs
      simp only [ArrayBase.size] at h2
      omega
    have ht : a.clampedNewIndex dst < a.elements.length := by
      unfold ArrayBase.clampedNewIndex
      split
      · rename_i h
        obtain ⟨h1, h2⟩ := h
        omega
      · omega
    have hs' : isPositiveAndBelow src a.elements.length := hs
    have hmv : (a.move src dst).elements
        = ArrayBase.moveInternal a.elements src.toNat (a.clampedNewIndex dst) := by
      unfold ArrayBase.move
      rw [if_pos hs']
    refine ⟨?_, ?_, ?_, ?_, ?_⟩
    · simp only [ArrayBase.size, hmv]
      exact moveInternal_length _ _ _ hf ht
    · rw [hmv]
      exact moveInternal_getD_dest _ _ _ hf ht
    · intro k h1 h2
      rw [hmv]
      exact moveInternal_getD_shift_up _ _ _ _ hf ht h1 h2
    · intro k h1 h2
      rw [hmv]
      exact moveInternal_getD_shift_down _ _ _ _ hf ht h1 h2
    · intro k hk hout
      rw [hmv]
      simp only [ArrayBase.size] at hk
      exact moveInternal_getD_outside _ _ _ _ hf ht hk hout
  · intro w x y z c
    rfl

/-- Witness for C5: a no-op out-of-range move, the two clamping behaviours,
and the length, destination and shift facts of `move (1, 3)` on
`[5,6,7,8]`. -/
theorem C5_move_spec_witness :
    (⟨[5], 2⟩ : ArrayBase).move 9 0 = ⟨[5], 2⟩
    ∧ (⟨[5, 6], 4⟩ : ArrayBase).clampedNewIndex 1 = (1 : Int).toNat
    ∧ (⟨[5, 6], 4⟩ : ArrayBase).clampedNewIndex 7 = (⟨[5, 6], 4⟩ : ArrayBase).size - 1
    ∧ ((⟨[5, 6, 7, 8], 8⟩ : ArrayBase).move 1 3).size
        = (⟨[5, 6, 7, 8], 8⟩ : ArrayBase).size
    ∧ ((⟨[5, 6, 7, 8], 8⟩ : ArrayBase).move 1 3).elements.getD
          ((⟨[5, 6, 7, 8], 8⟩ : ArrayBase).clampedNewIndex 3) 0
        = (⟨[5, 6, 7, 8], 8⟩ : ArrayBase).elements.getD (1 : Int).toNat 0
    ∧ ((⟨[5, 6, 7, 8], 8⟩ : ArrayBase).move 1 3).elements.getD 2 0
        = (⟨[5, 6, 7, 8], 8⟩ : ArrayBase).elements.getD (2 + 1) 0 :=
  ⟨(C5_move_spec ⟨[5], 2⟩ 9 0).1 (by decide),
   (C5_move_spec ⟨[5, 6], 4⟩ 0 1).2.1 (by decide),
   (C5_move_spec ⟨[5, 6], 4⟩ 0 7).2.2.1 (by decide),
   ((C5_move_spec ⟨[5, 6, 7, 8], 8⟩ 1 3).2.2.2.1 (by decide)).1,
   ((C5_move_spec ⟨[5, 6, 7, 8], 8⟩ 1 3).2.2.2.1 (by decide)).2.1,
   ((C5_move_spec ⟨[5, 6, 7, 8], 8⟩ 1 3).2.2.2.1 (by decide)).2.2.1 2 (by decide)
     (by decide)⟩

/-! ### The public operation set and the length/capacity invariant -/

/-- One public structural operation of `ArrayBase`. -/
inductive Op where
  | add (v : Int)
  | addVariadic (v : Int) (vs : List Int)
  | addArray (vs : List Int)
  | insert (i : Int) (v : Int) (n : Nat)
  | insertArray (i : Int) (vs : List Int)
  | removeElements (i n : Int)
  | swap (i j : Int)
  | move (i j : Int)
  | clear
  | ensureCapacity (m : Int)
  | setCapacity (m : Nat)
  | shrinkCapacity (m : Nat)
deriving DecidableEq, Repr

/-- Apply one public operation. -/
def applyOp (a : ArrayBase) : Op → ArrayBase
  | .add v => a.add v
  | .addVariadic v vs => a.addVariadic v vs
  | .addArray vs => a.addArray vs
  | .insert i v n => a.insert i v n
  | .insertArray i vs => a.insertArray i vs
  | .removeElements i n => a.removeElements i n
  | .swap i j => a.swap i j
  | .move i j => a.move i j
  | .clear => a.clear
  | .ensureCapacity m => a.ensureAllocatedSize m
  | .setCapacity m => a.setAllocatedSize m
  | .shrinkCapacity m => a.shrinkToNoMoreThan m

/-- The argument validity the source demands (its `jassert`ed preconditions):
`removeElements` needs a sub-range of the live region, and the capacity
setters must not cut below the live length (`setAllocatedSize` asserts
`numElements >= numUsed`).  All other operations accept any arguments. -/
def validOp (a : ArrayBase) : Op → Bool
  | .removeElements i n =>
      decide (0 ≤ i) && decide (0 ≤ n) && decide (i + n ≤ (a.size : Int))
  | .setCapacity m => decide (a.size ≤ m)
  | .shrinkCapacity m => decide (a.size ≤ m)
  | _ => true

/-- Every operation of the sequence is valid in the state it runs in. -/
def validSeq : ArrayBase → List Op → Bool
  | _, [] => true
  | a, op :: rest => validOp a op && validSeq (applyOp a op) rest

/-- Run a sequence of public operations. -/
def runOps : ArrayBase → List Op → ArrayBase
  | a, [] => a
  | a, op :: rest => runOps (applyOp a op) rest

theorem foldl_addAssumingCapacityIsReady :
    ∀ (l : List Int) (b : ArrayBase),
      l.foldl ArrayBase.addAssumingCapacityIsReady b
        = { b with elements := b.elements ++ l }
  | [], b => by simp
  | x :: xs, b => by
    rw [List.foldl_cons, foldl_addAssumingCapacityIsReady xs]
    simp [ArrayBase.addAssumingCapacityIsReady]

theorem insertPos_le (a : ArrayBase) (i : Int) :
    a.insertPos i ≤ a.elements.length := by
  unfold ArrayBase.insertPos
  split
  · rename_i h
    obtain ⟨h1, h2⟩ := h
    omega
  · exact Nat.le_refl _

theorem insert_size (a : ArrayBase) (i v : Int) (n : Nat) :
    (a.insert i v n).size = a.size + n := by
  have hp := insertPos_le a i
  simp only [ArrayBase.size, insert_elements, List.length_append, List.length_take,
    List.length_replicate, List.length_drop]
  omega

theorem insertArray_elements (a : ArrayBase) (i : Int) (vs : List Int) :
    (a.insertArray i vs).elements
      = a.elements.take (a.insertPos i) ++ vs ++ a.elements.drop (a.insertPos i) := by
  unfold ArrayBase.insertArray
  simp only [ensureAllocatedSize_elements]

theorem clampedNewIndex_lt (a : ArrayBase) (dst : Int)
    (h : 0 < a.elements.length) :
    a.clampedNewIndex dst < a.elements.length := by
  unfold ArrayBase.clampedNewIndex
  split
  · rename_i hin
    obtain ⟨h1, h2⟩ := hin
    omega
  · omega

/-- One valid public operation preserves `len <= capacity`. -/
theorem invariant_step (a : ArrayBase) (op : Op)
    (ha : a.size ≤ a.capacity) (hv : validOp a op = true) :
    (applyOp a op).size ≤ (applyOp a op).capacity := by
  cases op with
  | add v =>
    have h1 := le_ensureAllocatedSize a ((a.elements.length : Int) + 1)
    simp only [ArrayBase.size, ArrayBase.capacity] at ha
    simp only [applyOp, ArrayBase.add, ArrayBase.addAssumingCapacityIsReady,
      ArrayBase.size, ArrayBase.capacity, List.length_append,
      ensureAllocatedSize_elements, List.length_cons, List.length_nil]
    omega
  | addVariadic v vs =>
    have h1 := le_ensureAllocatedSize a
      ((a.elements.length : Int) + 1 + vs.length)
    simp only [applyOp, ArrayBase.addVariadic, foldl_addAssumingCapacityIsReady,
      ArrayBase.addAssumingCapacityIsReady, ArrayBase.size, ArrayBase.capacity,
      List.length_append, ensureAllocatedSize_elements, List.length_cons,
      List.length_nil]
    omega
  | addArray vs =>
    have h1 := le_ensureAllocatedSize a ((a.elements.length : Int) + vs.length)
    simp only [applyOp, ArrayBase.addArray, ArrayBase.size, ArrayBase.capacity,
      List.length_append, ensureAllocatedSize_elements]
    omega
  | insert i v n =>
    have h1 := le_ensureAllocatedSize a ((a.elements.length : Int) + n)
    have h2 := insert_size a i v n
    have h3 : (a.insert i v n).capacity
        = (a.ensureAllocatedSize ((a.elements.length : Int) + n)).numAllocated := rfl
    simp only [applyOp]
    simp only [ArrayBase.size, ArrayBase.capacity] at h2 h3 ⊢
    omega
  | insertArray i vs =>
    have h1 := le_ensureAllocatedSize a ((a.elements.length : Int) + vs.length)
    have hp := insertPos_le a i
    have h2 : (a.insertArray i vs).size = a.size + vs.length := by
      simp only [ArrayBase.size, insertArray_elements, List.length_append,
        List.length_take, List.length_drop]
      omega
    have h3 : (a.insertArray i vs).capacity
        = (a.ensureAllocatedSize ((a.elements.length : Int) + vs.length)).numAllocated :=
      rfl
    simp only [applyOp]
    simp only [ArrayBase.size, ArrayBase.capacity] at h2 h3 ⊢
    omega
  | removeElements i n =>
    simp only [validOp, Bool.and_eq_true, decide_eq_true_eq] at hv
    obtain ⟨⟨hv1, hv2⟩, hv3⟩ := hv
    simp only [ArrayBase.size] at hv3
    simp only [ArrayBase.size, ArrayBase.capacity] at ha
    simp only [applyOp]
    unfold ArrayBase.removeElements
    split
    · simp only [ArrayBase.size, ArrayBase.capacity, List.length_append,
        List.length_take, List.length_drop]
      omega
    · exact ha
  | swap i j =>
    simp only [applyOp]
    unfold ArrayBase.swap
    split
    · simpa only [ArrayBase.size, ArrayBase.capacity, List.length_set] using ha
    · exact ha
  | move i j =>
    simp only [applyOp]
    unfold ArrayBase.move
    split
    · rename_i hin
      have hf : i.toNat < a.elements.length := by
        obtain ⟨h1, h2⟩ := hin
        omega
      have ht := clampedNewIndex_lt a j (by omega)
      simpa only [ArrayBase.size, ArrayBase.capacity,
        moveInternal_length a.elements i.toNat (a.clampedNewIndex j) hf ht] using ha
    · exact ha
  | clear =>
    simp [applyOp, ArrayBase.clear, ArrayBase.size, ArrayBase.capacity]
  | ensureCapacity m =>
    have h1 := capacity_le_ensureAllocatedSize a m
    simp only [ArrayBase.size, ArrayBase.capacity] at ha
    simp only [applyOp, ArrayBase.size, ArrayBase.capacity,
      ensureAllocatedSize_elements]
    omega
  | setCapacity m =>
    simp only [validOp, decide_eq_true_eq] at hv
    simpa only [applyOp, ArrayBase.setAllocatedSize, ArrayBase.size,
      ArrayBase.capacity] using hv
  | shrinkCapacity m =>
    simp only [validOp, decide_eq_true_eq] at hv
    simp only [applyOp]
    unfold ArrayBase.shrinkToNoMoreThan ArrayBase.setAllocatedSize
    split
    · simpa only [ArrayBase.size, ArrayBase.capacity] using hv
    · exact ha

theorem invariant_run (a : ArrayBase) (ops : List Op)
    (ha : a.size ≤ a.capacity) (hv : validSeq a ops = true) :
    (runOps a ops).size ≤ (runOps a ops).capacity := by
  induction ops generalizing a with
  | nil => exact ha
  | cons op rest ih =>
    simp only [validSeq, Bool.and_eq_true] at hv
    exact ih (applyOp a op) (invariant_step a op ha hv.1) hv.2

theorem validSeq_take (ops : List Op) (a : ArrayBase) (n : Nat)
    (hv : validSeq a ops = true) : validSeq a (ops.take n) = true := by
  induction ops generalizing a n with
  | nil => simp [validSeq]
  | cons op rest ih =>
    cases n with
    | zero => rfl
    | succ n =>
      simp only [validSeq, Bool.and_eq_true] at hv ⊢
      exact ⟨hv.1, ih (applyOp a op) n hv.2⟩

/-- Claim C2: starting from the empty container, after every prefix of any
sequence of valid public operations, `0 <= len <= capacity` holds. -/
theorem C2_len_le_capacity (ops : List Op) (n : Nat)
    (hv : validSeq ArrayBase.empty ops = true) :
    0 ≤ (runOps ArrayBase.empty (ops.take n)).size
    ∧ (runOps ArrayBase.empty (ops.take n)).size
        ≤ (runOps ArrayBase.empty (ops.take n)).capacity :=
  ⟨Nat.zero_le _,
   invariant_run ArrayBase.empty (ops.take n) (Nat.le_refl 0)
     (validSeq_take ops ArrayBase.empty n hv)⟩

/-- Witness for C2: a concrete run exercising every operation kind. -/
theorem C2_len_le_capacity_witness :
    0 ≤ (runOps ArrayBase.empty
          ((Op.add 1 :: Op.addVariadic 2 [3, 4] :: Op.addArray [5, 6]
            :: Op.insert 1 9 2 :: Op.insertArray (-1) [7] :: Op.removeElements 2 3
            :: Op.swap 0 1 :: Op.move 0 3 :: Op.ensureCapacity 20
            :: Op.setCapacity 10 :: Op.shrinkCapacity 6 :: Op.clear :: []).take 12)).size
    ∧ (runOps ArrayBase.empty
          ((Op.add 1 :: Op.addVariadic 2 [3, 4] :: Op.addArray [5, 6]
            :: Op.insert 1 9 2 :: Op.insertArray (-1) [7] :: Op.removeElements 2 3
            :: Op.swap 0 1 :: Op.move 0 3 :: Op.ensureCapacity 20
            :: Op.setCapacity 10 :: Op.shrinkCapacity 6 :: Op.clear :: []).take 12)).size
        ≤ (runOps ArrayBase.empty
          ((Op.add 1 :: Op.addVariadic 2 [3, 4] :: Op.addArray [5, 6]
            :: Op.insert 1 9 2 :: Op.insertArray (-1) [7] :: Op.removeElements 2 3
            :: Op.swap 0 1 :: Op.move 0 3 :: Op.ensureCapacity 20
            :: Op.setCapacity 10 :: Op.shrinkCapacity 6 :: Op.clear :: []).take 12)).capacity :=
  C2_len_le_capacity _ 12 (by decide)

end Juce
